import Mathlib

/-!
Verification development for the food-truck ETL + dashboard repository.

The Python sources are shallowly embedded as Lean functions over explicit
row types:
* `clean_transactions` embeds `pipeline/transform.py` (rows as records,
  pandas column operations as list maps / filters);
* `write_time_partitioned_transactions` embeds the partitioning logic of
  `pipeline/load.py` (partitions as `path × row list` pairs);
* `clean_base_df`, `compute_truck_perf`, `compute_payment_mix` and the
  action-cue quantile embed `dashboard/dashboard_core/transforms.py`,
  `dashboard/dashboard_core/metrics.py` and `dashboard/app.py`;
* `build_metrics`, `df_to_html_table` and `highlight_line` embed
  `pipeline/daily_report.py`, with the Athena aggregate queries embedded
  as pure aggregations over the day's fact rows (SQL NULL as `Option`).

Machine floats are modelled as `Rat`; pandas nullable cells as `Option`;
a raw `total` cell by its parse outcome (`RawTotal`).
-/

/-- One pass of pandas `Series.str.strip`: drop leading and trailing
whitespace characters from a character list. -/
def stripChars (l : List Char) : List Char :=
  ((l.dropWhile Char.isWhitespace).reverse.dropWhile Char.isWhitespace).reverse

/-- `str.strip` on a string. -/
def stripString (s : String) : String := ⟨stripChars s.data⟩

/-- `str.lower` on a string (per-character lowering). -/
def lowerString (s : String) : String := ⟨s.data.map Char.toLower⟩

/-- Character-code comparison of strings (Python / pandas string order),
written so that it evaluates by kernel reduction. -/
def leChars : List Char → List Char → Bool
  | [], _ => true
  | _ :: _, [] => false
  | a :: as, b :: bs =>
    if a.val < b.val then true
    else if b.val < a.val then false
    else leChars as bs

def leString (a b : String) : Bool := leChars a.data b.data

/-- Keep the first row carrying each key, dropping later rows whose key was
already seen — pandas `drop_duplicates(subset=[key], keep="first")`.
`dedupByKey id` is the list of distinct values in first-occurrence order. -/
def dedupByKey {α κ : Type} [DecidableEq κ] (key : α → κ) : List α → List α
  | [] => []
  | a :: l => a :: (dedupByKey key l).filter (fun b => decide (key b ≠ key a))

/-- Insert into a sorted list, before the first element `b` with `le a b`. -/
def insertLe {α : Type} (le : α → α → Bool) (a : α) : List α → List α
  | [] => [a]
  | b :: l => if le a b then a :: b :: l else b :: insertLe le a l

/-- Stable insertion sort by a boolean comparison (models the sorted output
of pandas `groupby(sort=True)`, `sort_values`, `value_counts`). -/
def sortLe {α : Type} (le : α → α → Bool) : List α → List α
  | [] => []
  | a :: l => insertLe le a (sortLe le l)

/-- Event timestamps, to one-minute resolution (enough to distinguish
rows inside one partition hour). A parsed pandas `datetime64` value. -/
structure Timestamp where
  year : Nat
  month : Nat
  day : Nat
  hour : Nat
  minute : Nat
deriving DecidableEq

/-- The raw `total` cell of a transaction row, classified by the outcome of
`transform.py` lines 17-19: `astype("string").str.strip()` followed by the
case-insensitive `"VOID"` check and `pd.to_numeric(errors="coerce")`.
`num q` : the stripped text parses to the number `q`;
`voidLit` : the stripped text upper-cases to `"VOID"` (set to missing);
`unparsed` : missing, or fails numeric parsing (coerced to missing). -/
inductive RawTotal
  | num (q : Rat)
  | voidLit
  | unparsed
deriving DecidableEq

/-- Numeric value of the `total` cell after `transform.py` lines 17-19,
`none` meaning the row now holds a missing value. -/
def parseTotal : RawTotal → Option Rat
  | .num q => some q
  | .voidLit => none
  | .unparsed => none

/-- A raw joined row as fetched by `extract.py` (transaction × truck ×
payment-method): the column set of `fetch_transactions_joined`. Identifier
and numeric columns are modelled by their `pd.to_numeric` outcome, text
columns by `Option String` (missing cell = `none`), the event time `at` by
its `pd.to_datetime` parse outcome. -/
structure RawRow where
  transaction_id : Option Int
  truck_id : Option Int
  payment_method_id : Option Int
  truck_name : Option String
  truck_description : Option String
  payment_method : Option String
  total : RawTotal
  «at» : Option Timestamp
  has_card_reader : Option Int
  fsa_rating : Option Int
deriving DecidableEq

/-- `transform.py` lines 10-14: trim whitespace on the text columns
`payment_method`, `truck_name`, `truck_description`. -/
def stripTextRow (r : RawRow) : RawRow :=
  { r with
    payment_method := r.payment_method.map stripString
    truck_name := r.truck_name.map stripString
    truck_description := r.truck_description.map stripString }

/-- `transform.py` lines 16-20: parse `total`, keep rows whose value is
present and strictly positive, storing the parsed number. -/
def stepTotal (rows : List RawRow) : List RawRow :=
  rows.filterMap fun r =>
    match parseTotal r.total with
    | some q => if 0 < q then some { r with total := .num q } else none
    | none => none

/-- `transform.py` lines 22-24: keep rows whose event timestamp parsed. -/
def stepAt (rows : List RawRow) : List RawRow :=
  rows.filter fun r => r.«at».isSome

/-- `transform.py` lines 26-30: `has_card_reader` must coerce to 0 or 1
(a missing value fails the `isin` check and the row is dropped). -/
def stepCardReader (rows : List RawRow) : List RawRow :=
  rows.filter fun r =>
    decide (r.has_card_reader = some 0 ∨ r.has_card_reader = some 1)

/-- `transform.py` lines 32-34: `fsa_rating` must lie in the closed range
[0, 5] (`Series.between` is false on a missing value). -/
def stepRating (rows : List RawRow) : List RawRow :=
  rows.filter fun r =>
    match r.fsa_rating with
    | some v => decide (0 ≤ v ∧ v ≤ 5)
    | none => false

/-- `transform.py` line 37: lowercase the payment-method label. -/
def lowerPm (r : RawRow) : RawRow :=
  { r with payment_method := r.payment_method.map lowerString }

/-- `transform.py` lines 36-38: lowercase the label, then keep only rows
whose label is in the allowed set. -/
def stepPayment (rows : List RawRow) : List RawRow :=
  (rows.map lowerPm).filter fun r =>
    decide (r.payment_method = some "cash" ∨ r.payment_method = some "card")

/-- The validation part of `clean_transactions` (`transform.py` lines 8-38):
everything before the duplicate removal on line 42. -/
def validRows (rows : List RawRow) : List RawRow :=
  stepPayment (stepRating (stepCardReader (stepAt (stepTotal (rows.map stripTextRow)))))

/-- `clean_transactions` (`transform.py` lines 6-63).  The trailing casts
(lines 44-54) re-coerce already-numeric identifier columns to `Int64`, the
already-numeric `total` to `float64` and the already-0/1 card-reader flag
to boolean, and line 56-61 permutes columns: all value-preserving on this
record embedding, so they are identities here. -/
def clean_transactions (rows : List RawRow) : List RawRow :=
  dedupByKey (fun r => r.transaction_id) (validRows rows)

/-- Python `f"{int(x):02d}"`: decimal digits, left-padded to width 2. -/
def pad2 (n : Nat) : String := if n < 10 then "0" ++ toString n else toString n

/-- The leaf-partition relative path built in `load.py` lines 27-34:
`year=YYYY/month=MM/day=DD/hour=HH`, the year printed plainly and month,
day, hour zero-padded to two digits. -/
def partitionPath (t : Timestamp) : String :=
  "year=" ++ toString t.year ++ "/month=" ++ pad2 t.month ++
    "/day=" ++ pad2 t.day ++ "/hour=" ++ pad2 t.hour

/-- `write_time_partitioned_transactions` (`load.py` lines 14-38): drop
rows without a parseable timestamp, then group by the four-part truncated
time key (`groupby(..., sort=False)` lists leaf keys in first-occurrence
order); each leaf file holds exactly the surviving rows whose truncated
timestamp equals its key (the helper year/month/day/hour columns are
dropped again before writing, so leaf rows equal the input rows). -/
def write_time_partitioned_transactions (rows : List RawRow) : List (String × List RawRow) :=
  (dedupByKey id
      ((rows.filter fun r => r.«at».isSome).filterMap fun r => r.«at».map partitionPath)).map
    fun k =>
      (k, (rows.filter fun r => r.«at».isSome).filter
        fun r => decide (r.«at».map partitionPath = some k))

/-- A denormalized dashboard row: the column set of the Athena query in
`dashboard_core/queries.py` (`load_transactions_joined`).  The two `LEFT
JOIN`s can leave `truck_name` / `payment_method` missing. -/
structure DashRow where
  transaction_id : Option Int
  truck_id : Option Int
  truck_name : Option String
  payment_method_id : Option Int
  payment_method : Option String
  total : Option Rat
  day_dt : Option Timestamp
  hour_ts : Option Timestamp
deriving DecidableEq

/-- `clean_base_df` (`dashboard_core/transforms.py` lines 7-20): divide
`total` by 100 (pence → pounds), strip `truck_name`, strip-and-lower
`payment_method`, drop rows missing `total`, `truck_name`, `day_dt` or
`hour_ts`, then keep only strictly positive totals. -/
def clean_base_df (df : List DashRow) : List DashRow :=
  ((df.map fun r =>
      { r with
        total := r.total.map (· / 100)
        truck_name := r.truck_name.map stripString
        payment_method := r.payment_method.map fun s => lowerString (stripString s) }).filter
    fun r => r.total.isSome && r.truck_name.isSome && r.day_dt.isSome && r.hour_ts.isSome).filter
    fun r =>
      match r.total with
      | some q => decide (0 < q)
      | none => false

/-- `apply_filters` (`dashboard_core/transforms.py` lines 24-35): optional
membership narrowing by payment method and by truck name. -/
def apply_filters (df : List DashRow) (payment_filter : List String)
    (selected_trucks : List String) : List DashRow :=
  let out := if payment_filter.isEmpty then df
    else df.filter fun r =>
      decide (∃ p ∈ payment_filter, r.payment_method = some p)
  if selected_trucks.isEmpty then out
  else out.filter fun r =>
    decide (∃ n ∈ selected_trucks, r.truck_name = some n)

/-- One output row of `compute_truck_perf`.  The `cash_share` cell is a
nullable float: `none` models the NA produced when a group has no
non-missing payment method (the surrounding `float()` then raises). -/
structure TruckPerf where
  truck_name : String
  revenue : Rat
  transactions : Nat
  avg_sale : Rat
  cash_share : Option Rat
deriving DecidableEq

/-- The pandas group for one truck name: rows whose `truck_name` equals it
(rows with a missing name belong to no group — `groupby` drops them). -/
def truckGroup (df : List DashRow) (n : String) : List DashRow :=
  df.filter fun r => decide (r.truck_name = some n)

/-- `("transaction_id", "nunique")`: distinct non-missing ids. -/
def nuniqueTx (g : List DashRow) : Nat :=
  (dedupByKey id (g.filterMap fun r => r.transaction_id)).length

/-- `("total", "sum")`: pandas sums over the non-missing cells. -/
def groupRevenue (g : List DashRow) : Rat :=
  (g.filterMap fun r => r.total).sum

/-- `("total", "mean")`: mean over the non-missing cells. -/
def groupAvgSale (g : List DashRow) : Rat :=
  groupRevenue g / ((g.filterMap fun r => r.total).length : Rat)

/-- `lambda s: float(s.eq("cash").mean())` on the string-dtype
`payment_method` column (`clean_base_df` casts it with
`astype("string")`): the `eq` comparison propagates a missing cell as
missing, and `.mean()` skips missing cells — the mean runs over the
non-missing comparisons only.  When every cell of the group is missing
the mean is NA (`none` here), and the program's `float(...)` raises on
it. -/
def groupCashShare (g : List DashRow) : Option Rat :=
  if (g.countP fun r => r.payment_method.isSome) = 0 then none
  else
    some ((g.countP (fun r => decide (r.payment_method = some "cash")) : Rat) /
      ((g.countP fun r => r.payment_method.isSome) : Rat))

/-- `compute_truck_perf` (`dashboard_core/metrics.py` lines 41-53):
group by `truck_name` (keys sorted ascending, the `groupby` default) and
aggregate revenue, distinct-transaction count, mean ticket, cash share. -/
def compute_truck_perf (df : List DashRow) : List TruckPerf :=
  (sortLe leString (dedupByKey id (df.filterMap fun r => r.truck_name))).map fun n =>
    { truck_name := n
      revenue := groupRevenue (truckGroup df n)
      transactions := nuniqueTx (truckGroup df n)
      avg_sale := groupAvgSale (truckGroup df n)
      cash_share := groupCashShare (truckGroup df n) }

/-- `compute_payment_mix` (`dashboard_core/metrics.py` lines 56-66):
`value_counts(dropna=False)` — occurrence counts of every distinct cell of
the `payment_method` column, the missing cell included, sorted by count
descending — then `fillna("unknown")` relabels the missing cell. -/
def compute_payment_mix (df : List DashRow) : List (String × Nat) :=
  (sortLe (fun a b => decide (b.2 ≤ a.2))
      ((dedupByKey id (df.map fun r => r.payment_method)).map
        fun v => (v, (df.map fun r => r.payment_method).countP fun x => decide (x = v)))).map
    fun p => (p.1.getD "unknown", p.2)

/-- The values of a series sorted ascending (numpy quantile step 1). -/
def sortedVals (xs : List Rat) : List Rat := sortLe (fun a b => decide (a ≤ b)) xs

/-- The integer part of the fractional position `q * (n - 1)` used by the
linear-interpolation quantile. -/
def quantileIdx (q : Rat) (n : Nat) : Nat := (q * ((n : Rat) - 1)).floor.toNat

/-- The fractional part of the position `q * (n - 1)`. -/
def quantileFrac (q : Rat) (n : Nat) : Rat :=
  q * ((n : Rat) - 1) - ((quantileIdx q n : Nat) : Rat)

/-- `Series.quantile(q)` with the default linear interpolation (numpy):
interpolate between the neighbours of fractional position `q * (n - 1)`
of the sorted values (the upper neighbour falls back to the lower one at
the right edge). -/
def quantileLinear (q : Rat) (xs : List Rat) : Rat :=
  (sortedVals xs).getD (quantileIdx q xs.length) 0 +
    quantileFrac q xs.length *
      ((sortedVals xs).getD (quantileIdx q xs.length + 1)
          ((sortedVals xs).getD (quantileIdx q xs.length) 0) -
        (sortedVals xs).getD (quantileIdx q xs.length) 0)

/-- `app.py` line 178: the 25th-percentile revenue threshold over the
truck-performance aggregate. -/
def low_rev_threshold (perf : List TruckPerf) : Rat :=
  quantileLinear (1/4) (perf.map fun t => t.revenue)

/-- `app.py` lines 181-183: the trucks flagged underperforming — exactly
those with revenue at or below the threshold (the column projection of the
source keeps whole records here). -/
def low_rev (perf : List TruckPerf) : List TruckPerf :=
  perf.filter fun t => decide (t.revenue ≤ low_rev_threshold perf)

/-- A fact row of the lake's `transaction` table as seen by the daily
report's Athena queries, already restricted to the report day (the
`where_day` predicate of `daily_report.py` lines 101-105 compares the
partition key columns to the target date, so the three queries all run
over this same day-row set).  SQL NULL is `none`. -/
structure LakeTx where
  transaction_id : Option Int
  truck_id : Option Int
  payment_method_id : Option Int
  total : Option Rat
deriving DecidableEq

/-- The `WHERE ... total IS NOT NULL AND total > 0` filter shared by the
three report queries. -/
def validTx (txs : List LakeTx) : List LakeTx :=
  txs.filter fun t =>
    match t.total with
    | some q => decide (0 < q)
    | none => false

/-- `COUNT(DISTINCT t.transaction_id)`: NULL ids are not counted. -/
def countDistinctTx (txs : List LakeTx) : Nat :=
  (dedupByKey id (txs.filterMap fun t => t.transaction_id)).length

/-- `SUM(CAST(t.total AS DOUBLE))` over rows whose total is present. -/
def sumTotal (txs : List LakeTx) : Rat :=
  (txs.filterMap fun t => t.total).sum

/-- `round(x * 100)` with ties to even (Python / numpy float rounding),
computed from the numerator and denominator so it kernel-reduces. -/
def centsOf (v : Rat) : Int :=
  let p := v.num * 100
  let q : Int := (v.den : Int)
  let f := Int.fdiv p q
  let r := p - f * q
  if 2 * r < q then f
  else if q < 2 * r then f + 1
  else if f % 2 = 0 then f else f + 1

/-- `round(x, 2)` (Python round / pandas `.round(2)`), ties to even. -/
def round2 (x : Rat) : Rat := (centsOf x : Rat) / 100

/-- `gbp_from_pence` (`daily_report.py` lines 78-80) on a possibly-NaN
float cell (`none` = NaN).  The guard `(pence or 0.0)` only replaces a
falsy value — `0.0` or `None` — by `0.0`; float NaN is truthy and passes
through, and the division and `round` then propagate it.  So the function
maps NaN to NaN and a number `p` to `round(p / 100, 2)`. -/
def gbp_from_pence (pence : Option Rat) : Option Rat :=
  pence.map fun p => round2 (p / 100)

/-- Group consecutive digit triples (input reversed) with commas, the
worker for Python's `,` format specifier. -/
def digitsGroup3 : List Char → List Char
  | a :: b :: c :: d :: rest => a :: b :: c :: ',' :: digitsGroup3 (d :: rest)
  | l => l

/-- Decimal digits of a natural number with thousands separators. -/
def commaNat (n : Nat) : String := ⟨(digitsGroup3 (toString n).data.reverse).reverse⟩

/-- `fmt_int` (`daily_report.py` lines 88-90): `f"{value:,}"`. -/
def fmt_int (n : Int) : String :=
  if n < 0 then "-" ++ commaNat n.natAbs else commaNat n.natAbs

/-- `f"{v:,.2f}"`: two rounded decimal places, thousands separators. -/
def fmtFloat2 (v : Rat) : String :=
  let c := centsOf v
  let sign := if c < 0 then "-" else ""
  let a := c.natAbs
  sign ++ commaNat (a / 100) ++ "." ++ pad2 (a % 100)

/-- `fmt_gbp` (`daily_report.py` lines 83-85): `f"£{value:,.2f}"`. -/
def fmt_gbp (v : Rat) : String := "£" ++ fmtFloat2 v

/-- Python `html.escape(s, quote=True)` on one character. -/
def escapeChar (c : Char) : List Char :=
  if c = '&' then "&amp;".data
  else if c = '<' then "&lt;".data
  else if c = '>' then "&gt;".data
  else if c = '"' then "&quot;".data
  else if c = Char.ofNat 39 then "&#x27;".data
  else [c]

/-- Python `html.escape` applied to a whole string. -/
def htmlEscape (s : String) : String :=
  ⟨s.data.foldr (fun c acc => escapeChar c ++ acc) []⟩

/-- One row of the report's by-truck aggregate (`by_truck_df` after the
post-processing of `daily_report.py` lines 150-168). -/
structure TruckAgg where
  truck_name : String
  n_transactions : Nat
  total_pence : Rat
  avg_customer_spend_pence : Rat
  total_gbp : Rat
  avg_customer_spend_gbp : Rat
deriving DecidableEq

/-- One `<td>` cell of the report table: the displayed text, escaped. -/
def tdCell (s : String) : String := "<td>" ++ htmlEscape s ++ "</td>"

/-- `df_to_html_table` (`daily_report.py` lines 246-283): an explicit
notice for the empty aggregate, otherwise a table whose cells hold the
formatted, HTML-escaped column values in the view order
Truck / Transactions / Total (GBP) / Avg customer spend (GBP). -/
def df_to_html_table (rows : List TruckAgg) : String :=
  if rows.isEmpty then "<p><em>No transactions recorded for this date.</em></p>"
  else
    let headers := String.join
      (["Truck", "Transactions", "Total (GBP)", "Avg customer spend (GBP)"].map
        fun c => "<th>" ++ htmlEscape c ++ "</th>")
    let rowsHtml := String.join (rows.map fun r =>
      "<tr>" ++ tdCell r.truck_name ++ tdCell (fmt_int (r.n_transactions : Int)) ++
        tdCell ("£" ++ fmtFloat2 r.total_gbp) ++
        tdCell ("£" ++ fmtFloat2 r.avg_customer_spend_gbp) ++ "</tr>")
    "\n    <table>\n      <thead><tr>" ++ headers ++ "</tr></thead>\n      <tbody>\n        " ++
      rowsHtml ++ "\n      </tbody>\n    </table>\n    "

/-- A highlight entry of the report (`daily_report.py` lines 226-242). -/
structure Highlight where
  truck_name : String
  total_gbp : Rat
  n_transactions : Int
deriving DecidableEq

/-- `highlight_line` (`daily_report.py` lines 302-309). -/
def highlight_line (label : String) (item : Option Highlight) : String :=
  match item with
  | none => "<li><b>" ++ htmlEscape label ++ ":</b> n/a</li>"
  | some it =>
      "<li><b>" ++ htmlEscape label ++ ":</b> " ++ htmlEscape it.truck_name ++
        " (" ++ fmt_gbp it.total_gbp ++ ", " ++ fmt_int it.n_transactions ++ " tx)</li>"

/-- `COALESCE(tr.truck_name, 'unknown')` after the LEFT JOIN on
`truck_id` (dimension keys are unique, so the first match is the match). -/
def truckNameOf (trucks : List (Int × String)) (t : LakeTx) : String :=
  ((t.truck_id.bind fun i => (trucks.find? fun p => decide (p.1 = i)).map fun p => p.2)).getD
    "unknown"

/-- `COALESCE(LOWER(TRIM(pm.payment_method)), 'unknown')` after the LEFT
JOIN on `payment_method_id`. -/
def pmLabelOf (pms : List (Int × String)) (t : LakeTx) : String :=
  (((t.payment_method_id.bind fun i =>
      (pms.find? fun p => decide (p.1 = i)).map fun p => p.2)).map
    fun s => lowerString (stripString s)).getD "unknown"

/-- The report's overall card figures (`daily_report.py` lines 214-218).
The two monetary figures are nullable floats: `none` models float NaN,
which an empty day produces (NULL `SUM`/`AVG` materialized by the Athena
reader as NaN in a float column). -/
structure Overall where
  total_transaction_value_gbp : Option Rat
  n_transactions : Nat
  avg_customer_spend_gbp : Option Rat
deriving DecidableEq

/-- The report's payment-mix block (`daily_report.py` lines 220-225). -/
structure PaymentMixOut where
  cash_n : Nat
  card_n : Nat
  cash_share : Rat
  card_share : Rat
deriving DecidableEq

/-- The value part of the dictionary returned by `build_metrics` (the
resolved date and generation timestamp are wall-clock strings supplied by
the invoking environment and carry no data-path content). -/
structure Metrics where
  overall : Overall
  by_truck_df : List TruckAgg
  payment_mix : PaymentMixOut
  top_truck_by_revenue : Option Highlight
  lowest_truck_by_revenue : Option Highlight
  top_truck_by_transactions : Option Highlight
deriving DecidableEq

def highlightOf (r : TruckAgg) : Highlight :=
  ⟨r.truck_name, r.total_gbp, (r.n_transactions : Int)⟩

/-- The by-truck query of `build_metrics` (`daily_report.py` lines
128-168): group the valid day rows by coalesced truck name, aggregate
distinct-transaction count, summed and averaged pence, derive the rounded
GBP columns, and sort by `(total_gbp, n_transactions)` descending. -/
def build_by_truck (txs : List LakeTx) (trucks : List (Int × String)) : List TruckAgg :=
  let v := validTx txs
  let names := dedupByKey id (v.map (truckNameOf trucks))
  let unsorted := names.map fun n =>
    let g := v.filter fun t => decide (truckNameOf trucks t = n)
    let tp := sumTotal g
    let av := tp / ((g.filterMap fun t => t.total).length : Rat)
    { truck_name := n
      n_transactions := countDistinctTx g
      total_pence := tp
      avg_customer_spend_pence := av
      total_gbp := round2 (tp / 100)
      avg_customer_spend_gbp := round2 (av / 100) : TruckAgg }
  sortLe (fun a b =>
      decide (b.total_gbp < a.total_gbp) ||
        (decide (a.total_gbp = b.total_gbp) && decide (b.n_transactions ≤ a.n_transactions)))
    unsorted

/-- The payment-mix query of `build_metrics` (`daily_report.py` lines
170-190): distinct transaction count per coalesced payment-method label. -/
def build_pm_counts (txs : List LakeTx) (pms : List (Int × String)) : List (String × Nat) :=
  let v := validTx txs
  let labels := dedupByKey id (v.map (pmLabelOf pms))
  labels.map fun s => (s, countDistinctTx (v.filter fun t => decide (pmLabelOf pms t = s)))

/-- `build_metrics` (`daily_report.py` lines 93-243) over the day's fact
rows and the two dimension tables.  The overall aggregate query returns a
single row whose `SUM`/`AVG` are SQL NULL when no row survives the
filter; the Athena reader materializes that NULL as float NaN (`none`
here), and since NaN is truthy the Python `float(x or 0.0)` on lines
121-126 keeps it — so an empty day leaves the pence figures NaN, which
`gbp_from_pence` propagates.  `COUNT` is never NULL, so `n_transactions`
is a plain 0. -/
def build_metrics (txs : List LakeTx) (trucks pms : List (Int × String)) : Metrics :=
  let v := validTx txs
  let n_tx := countDistinctTx v
  let total_pence : Option Rat := if v.isEmpty then none else some (sumTotal v)
  let avg_pence : Option Rat :=
    if v.isEmpty then none
    else some (sumTotal v / ((v.filterMap fun t => t.total).length : Rat))
  let byTruck := build_by_truck txs trucks
  let pmCounts := build_pm_counts txs pms
  let cash_n := ((pmCounts.find? fun p => decide (p.1 = "cash")).map fun p => p.2).getD 0
  let card_n := ((pmCounts.find? fun p => decide (p.1 = "card")).map fun p => p.2).getD 0
  let denom : Nat := max n_tx 1
  { overall :=
      { total_transaction_value_gbp := gbp_from_pence total_pence
        n_transactions := n_tx
        avg_customer_spend_gbp := gbp_from_pence avg_pence }
    by_truck_df := byTruck
    payment_mix :=
      { cash_n := cash_n
        card_n := card_n
        cash_share := (cash_n : Rat) / (denom : Rat)
        card_share := (card_n : Rat) / (denom : Rat) }
    top_truck_by_revenue := byTruck.head?.map highlightOf
    lowest_truck_by_revenue := byTruck.getLast?.map highlightOf
    top_truck_by_transactions :=
      (sortLe (fun a b => decide (b.n_transactions ≤ a.n_transactions)) byTruck).head?.map
        highlightOf }

/-- Whether the second list starts with the first one. -/
def leadsWith : List Char → List Char → Bool
  | [], _ => true
  | _ :: _, [] => false
  | a :: as, b :: bs => a == b && leadsWith as bs

/-- Whether `needle` occurs contiguously anywhere in the second list. -/
def occursIn (needle : List Char) : List Char → Bool
  | [] => needle.isEmpty
  | c :: t => leadsWith needle (c :: t) || occursIn needle t

/-- Concrete raw-row fixture used by closed witness statements: a joined
row with the given identifier, truck name, payment label, amount cell and
event timestamp, and fixed unproblematic remaining columns. -/
def txRow (tid : Int) (name pm : String) (tot : RawTotal) (ts : Timestamp) : RawRow :=
  ⟨some tid, some 2, some 3, some name, some "D", some pm, tot, some ts, some 1, some 4⟩

/-- Concrete dashboard-row fixture used by closed witness statements. -/
def dashRow (tid : Int) (name pm : String) (tot : Rat) : DashRow :=
  ⟨some tid, some 2, some name, some 3, some pm, some tot,
    some ⟨2024, 3, 5, 0, 0⟩, some ⟨2024, 3, 5, 14, 0⟩⟩

/-! ### Generic lemmas about the list helpers -/

theorem head?_dropWhile_not (p : Char → Bool) :
    ∀ (l : List Char) (c : Char), (l.dropWhile p).head? = some c → p c = false := by
  intro l
  induction l with
  | nil => intro c h; simp [List.dropWhile] at h
  | cons a t ih =>
    intro c h
    by_cases ha : p a
    · rw [List.dropWhile_cons, if_pos ha] at h
      exact ih c h
    · rw [List.dropWhile_cons, if_neg ha] at h
      simp only [List.head?_cons, Option.some.injEq] at h
      subst h
      exact Bool.eq_false_iff.mpr ha

theorem dropWhile_eq_self_of (p : Char → Bool) (l : List Char)
    (h : ∀ c, l.head? = some c → p c = false) : l.dropWhile p = l := by
  cases l with
  | nil => rfl
  | cons a t =>
    have := h a rfl
    rw [List.dropWhile_cons, if_neg (by simp [this])]

theorem getLast?_dropWhile (p : Char → Bool) (l : List Char)
    (h : l.dropWhile p ≠ []) : (l.dropWhile p).getLast? = l.getLast? := by
  obtain ⟨pre, heq⟩ := @List.dropWhile_suffix Char l p
  have halt := List.getLast?_append_of_ne_nil pre h
  rw [heq] at halt
  exact halt.symm

theorem stripChars_getLast?_not (l : List Char) (c : Char)
    (h : (stripChars l).getLast? = some c) : c.isWhitespace = false := by
  unfold stripChars at h
  rw [List.getLast?_reverse] at h
  exact head?_dropWhile_not _ _ _ h

theorem stripChars_head?_not (l : List Char) (c : Char)
    (h : (stripChars l).head? = some c) : c.isWhitespace = false := by
  unfold stripChars at h
  rw [List.head?_reverse] at h
  have hne : (l.dropWhile Char.isWhitespace).reverse.dropWhile Char.isWhitespace ≠ [] := by
    intro hnil
    rw [hnil] at h
    simp at h
  rw [getLast?_dropWhile _ _ hne, List.getLast?_reverse] at h
  exact head?_dropWhile_not _ _ _ h

theorem stripChars_idem (l : List Char) : stripChars (stripChars l) = stripChars l := by
  have h1 : (stripChars l).dropWhile Char.isWhitespace = stripChars l :=
    dropWhile_eq_self_of _ _ (fun c hc => stripChars_head?_not l c hc)
  have h2 : (stripChars l).reverse.dropWhile Char.isWhitespace = (stripChars l).reverse :=
    dropWhile_eq_self_of _ _ (fun c hc => by
      rw [List.head?_reverse] at hc
      exact stripChars_getLast?_not l c hc)
  show ((((stripChars l).dropWhile _).reverse.dropWhile _)).reverse = stripChars l
  rw [h1, h2, List.reverse_reverse]

theorem stripString_idem (s : String) : stripString (stripString s) = stripString s := by
  show (⟨stripChars (stripChars s.data)⟩ : String) = ⟨stripChars s.data⟩
  rw [stripChars_idem]

theorem mem_of_mem_dedupByKey {α κ : Type} [DecidableEq κ] (key : α → κ) :
    ∀ (l : List α) (a : α), a ∈ dedupByKey key l → a ∈ l := by
  intro l
  induction l with
  | nil => intro a h; simp [dedupByKey] at h
  | cons b t ih =>
    intro a h
    rw [dedupByKey, List.mem_cons] at h
    rcases h with rfl | h'
    · exact List.mem_cons_self _ _
    · exact List.mem_cons_of_mem _ (ih a (List.mem_of_mem_filter h'))

theorem keys_nodup_dedupByKey {α κ : Type} [DecidableEq κ] (key : α → κ) :
    ∀ (l : List α), ((dedupByKey key l).map key).Nodup := by
  intro l
  induction l with
  | nil => simp [dedupByKey]
  | cons b t ih =>
    rw [dedupByKey, List.map_cons, List.nodup_cons]
    constructor
    · intro hmem
      obtain ⟨x, hx, hkx⟩ := List.mem_map.mp hmem
      have := List.of_mem_filter hx
      simp at this
      exact this hkx
    · exact ih.sublist ((List.filter_sublist _).map key)

theorem dedupByKey_eq_self {α κ : Type} [DecidableEq κ] (key : α → κ) :
    ∀ (l : List α), (l.map key).Nodup → dedupByKey key l = l := by
  intro l
  induction l with
  | nil => intro _; rfl
  | cons b t ih =>
    intro hnd
    rw [List.map_cons, List.nodup_cons] at hnd
    rw [dedupByKey, ih hnd.2, List.filter_eq_self.mpr]
    intro a ha
    simp only [decide_eq_true_eq]
    intro hk
    exact hnd.1 (hk ▸ List.mem_map_of_mem key ha)

theorem dedupByKey_filter_key {α κ : Type} [DecidableEq κ] (key : α → κ) (k : κ) :
    ∀ (l : List α),
      (dedupByKey key l).filter (fun b => decide (key b = k)) =
        (l.filter (fun b => decide (key b = k))).take 1 := by
  intro l
  induction l with
  | nil => rfl
  | cons a t ih =>
    by_cases hk : key a = k
    · rw [dedupByKey, List.filter_cons, if_pos (by simp [hk]), List.filter_cons,
        if_pos (by simp [hk])]
      have hnil : ((dedupByKey key t).filter (fun b => decide (key b ≠ key a))).filter
          (fun b => decide (key b = k)) = [] := by
        rw [List.filter_eq_nil_iff]
        intro b hb
        have := List.of_mem_filter hb
        simp only [decide_eq_true_eq] at this ⊢
        intro hbk
        exact this (by rw [hbk, hk])
      rw [hnil]
      simp
    · rw [dedupByKey, List.filter_cons, if_neg (by simp [hk]), List.filter_cons,
        if_neg (by simp [hk]), ← ih]
      have : ∀ b ∈ dedupByKey key t,
          (decide (key b = k)) = (decide (key b = k) && decide (key b ≠ key a)) := by
        intro b _
        by_cases hbk : key b = k
        · have hka : k ≠ key a := fun hke => hk hke.symm
          simp [hbk, hka]
        · simp [hbk]
      calc ((dedupByKey key t).filter fun b => decide (key b ≠ key a)).filter
            (fun b => decide (key b = k))
          = (dedupByKey key t).filter fun b => decide (key b = k) && decide (key b ≠ key a) := by
            rw [List.filter_filter]
        _ = (dedupByKey key t).filter fun b => decide (key b = k) :=
            (List.filter_congr this).symm

theorem find?_eq_head?_filter {α : Type} (p : α → Bool) :
    ∀ (l : List α), l.find? p = (l.filter p).head? := by
  intro l
  induction l with
  | nil => rfl
  | cons a t ih =>
    cases hp : p a
    · rw [List.find?_cons_of_neg _ (by simp [hp]), List.filter_cons, if_neg (by simp [hp]), ih]
    · rw [List.find?_cons_of_pos _ hp, List.filter_cons, if_pos hp, List.head?_cons]

theorem filter_eq_singleton_of_nodup {α : Type} [DecidableEq α] :
    ∀ (l : List α), l.Nodup → ∀ (a : α), a ∈ l →
      l.filter (fun b => decide (b = a)) = [a] := by
  intro l
  induction l with
  | nil => intro _ a ha; simp at ha
  | cons b t ih =>
    intro hnd a ha
    rw [List.nodup_cons] at hnd
    rcases List.mem_cons.mp ha with rfl | hmem
    · rw [List.filter_cons, if_pos (by simp)]
      have : t.filter (fun b => decide (b = a)) = [] := by
        rw [List.filter_eq_nil_iff]
        intro c hc
        simp only [decide_eq_true_eq]
        intro hca
        exact hnd.1 (hca ▸ hc)
      rw [this]
    · rw [List.filter_cons, if_neg (by simp; rintro rfl; exact hnd.1 hmem), ih hnd.2 a hmem]

theorem mem_dedupByKey_id {α : Type} [DecidableEq α] :
    ∀ (l : List α) (a : α), a ∈ dedupByKey id l ↔ a ∈ l := by
  intro l
  induction l with
  | nil => intro a; rfl
  | cons b t ih =>
    intro a
    constructor
    · exact mem_of_mem_dedupByKey id (b :: t) a
    · intro h
      rcases List.mem_cons.mp h with rfl | hmem
      · exact List.mem_cons_self _ _
      · rw [dedupByKey, List.mem_cons]
        by_cases hab : a = b
        · exact Or.inl hab
        · exact Or.inr (List.mem_filter.mpr ⟨(ih a).mpr hmem, by simpa using hab⟩)

theorem nodup_dedupByKey_id {α : Type} [DecidableEq α] (l : List α) :
    (dedupByKey id l).Nodup := by
  have := keys_nodup_dedupByKey (id : α → α) l
  rwa [List.map_id] at this

theorem insertLe_perm {α : Type} (le : α → α → Bool) (a : α) :
    ∀ (l : List α), List.Perm (insertLe le a l) (a :: l) := by
  intro l
  induction l with
  | nil => rfl
  | cons b t ih =>
    rw [insertLe]
    by_cases h : le a b
    · rw [if_pos h]
    · rw [if_neg h]
      exact (ih.cons b).trans (List.Perm.swap a b t)

theorem sortLe_perm {α : Type} (le : α → α → Bool) :
    ∀ (l : List α), List.Perm (sortLe le l) l := by
  intro l
  induction l with
  | nil => rfl
  | cons a t ih =>
    rw [sortLe]
    exact (insertLe_perm le a (sortLe le t)).trans (ih.cons a)

theorem sum_filterMap_getD {α M : Type} [AddCommMonoid M] (g : α → Option M) :
    ∀ (l : List α), (l.filterMap g).sum = (l.map fun a => (g a).getD 0).sum := by
  intro l
  induction l with
  | nil => rfl
  | cons a t ih =>
    cases hg : g a
    · rw [List.filterMap_cons_none hg, List.map_cons, List.sum_cons, ih, hg]
      simp
    · rw [List.filterMap_cons_some hg, List.map_cons, List.sum_cons, List.sum_cons, ih, hg]
      simp

theorem filter_partition_sum {α M : Type} [AddCommMonoid M] (p : α → Bool) (f : α → M) :
    ∀ (l : List α),
      ((l.filter p).map f).sum + ((l.filter fun a => !(p a)).map f).sum = (l.map f).sum := by
  intro l
  induction l with
  | nil => simp
  | cons a t ih =>
    cases hp : p a
    · rw [List.filter_cons, if_neg (by simp [hp]), List.filter_cons, if_pos (by simp [hp])]
      rw [List.map_cons, List.map_cons, List.sum_cons, List.sum_cons, ← ih]
      abel
    · rw [List.filter_cons, if_pos (by simp [hp]), List.filter_cons, if_neg (by simp [hp])]
      rw [List.map_cons, List.map_cons, List.sum_cons, List.sum_cons, ← ih]
      abel

theorem keys_partition_sum {α κ M : Type} [DecidableEq κ] [AddCommMonoid M]
    (key : α → κ) (f : α → M) :
    ∀ (keys : List κ), keys.Nodup → ∀ (l : List α), (∀ a ∈ l, key a ∈ keys) →
      (keys.map fun k => ((l.filter fun a => decide (key a = k)).map f).sum).sum =
        (l.map f).sum := by
  intro keys
  induction keys with
  | nil =>
    intro _ l hcov
    have : l = [] := List.eq_nil_iff_forall_not_mem.mpr (fun a ha => by simpa using hcov a ha)
    subst this
    rfl
  | cons k ks ih =>
    intro hnd l hcov
    rw [List.nodup_cons] at hnd
    rw [List.map_cons, List.sum_cons]
    set l' := l.filter fun a => !(decide (key a = k)) with hl'
    have hterm : ∀ k' ∈ ks,
        ((l.filter fun a => decide (key a = k')).map f).sum =
          ((l'.filter fun a => decide (key a = k')).map f).sum := by
      intro k' hk'
      have : l'.filter (fun a => decide (key a = k')) = l.filter fun a => decide (key a = k') := by
        rw [hl', List.filter_filter]
        apply List.filter_congr
        intro a _
        by_cases hak : key a = k'
        · have h2 : k' ≠ k := fun he => hnd.1 (he ▸ hk')
          have : key a ≠ k := hak ▸ h2
          simp [hak, this, h2]
        · simp [hak]
      rw [this]
    rw [List.map_congr_left hterm, ih hnd.2 l' (by
      intro a ha
      have hmem := List.mem_of_mem_filter ha
      have hne := List.of_mem_filter ha
      simp only [Bool.not_eq_true', decide_eq_false_iff_not] at hne
      rcases List.mem_cons.mp (hcov a hmem) with hk | hks
      · exact absurd hk hne
      · exact hks)]
    exact filter_partition_sum (fun a => decide (key a = k)) f l

/-! ### Lemmas about the cleaning steps of `transform.py` -/

theorem optStrip_idem (x : Option String) :
    Option.map stripString (Option.map stripString x) = Option.map stripString x := by
  cases x <;> simp [stripString_idem]

theorem optStrip_comp (x : Option String) :
    Option.map (stripString ∘ stripString) x = Option.map stripString x := by
  cases x <;> simp [stripString_idem]

theorem mem_stepTotal (rows : List RawRow) (r : RawRow) (h : r ∈ stepTotal rows) :
    ∃ r' ∈ rows, ∃ q : Rat,
      parseTotal r'.total = some q ∧ 0 < q ∧ r = { r' with total := .num q } := by
  unfold stepTotal at h
  obtain ⟨r', hr', hf⟩ := List.mem_filterMap.mp h
  split at hf
  case h_1 q hpq =>
    split at hf
    · exact ⟨r', hr', q, hpq, by assumption, (Option.some.inj hf).symm⟩
    · exact absurd hf (by simp)
  case h_2 hpq => exact absurd hf (by simp)

theorem mem_stepAt (rows : List RawRow) (r : RawRow) (h : r ∈ stepAt rows) :
    r ∈ rows ∧ r.«at».isSome = true := by
  unfold stepAt at h
  exact List.mem_filter.mp h

theorem mem_stepCardReader (rows : List RawRow) (r : RawRow) (h : r ∈ stepCardReader rows) :
    r ∈ rows ∧ (r.has_card_reader = some 0 ∨ r.has_card_reader = some 1) := by
  unfold stepCardReader at h
  exact ⟨List.mem_of_mem_filter h, by simpa using List.of_mem_filter h⟩

theorem mem_stepRating (rows : List RawRow) (r : RawRow) (h : r ∈ stepRating rows) :
    r ∈ rows ∧ ∃ v : Int, r.fsa_rating = some v ∧ 0 ≤ v ∧ v ≤ 5 := by
  unfold stepRating at h
  refine ⟨List.mem_of_mem_filter h, ?_⟩
  have hp := List.of_mem_filter h
  cases hv : r.fsa_rating with
  | none => rw [hv] at hp; exact absurd hp (by simp)
  | some v =>
    rw [hv] at hp
    simp only [decide_eq_true_eq] at hp
    exact ⟨v, rfl, hp⟩

theorem mem_stepPayment (rows : List RawRow) (r : RawRow) (h : r ∈ stepPayment rows) :
    (r.payment_method = some "cash" ∨ r.payment_method = some "card") ∧
      ∃ r', r' ∈ rows ∧ r = lowerPm r' := by
  unfold stepPayment at h
  refine ⟨by simpa using List.of_mem_filter h, ?_⟩
  obtain ⟨r', hr', heq⟩ := List.mem_map.mp (List.mem_of_mem_filter h)
  exact ⟨r', hr', heq.symm⟩

theorem mem_validRows (rows : List RawRow) (r : RawRow) (h : r ∈ validRows rows) :
    (∃ q : Rat, r.total = RawTotal.num q ∧ 0 < q) ∧
    r.«at».isSome = true ∧
    (r.has_card_reader = some 0 ∨ r.has_card_reader = some 1) ∧
    (∃ v : Int, r.fsa_rating = some v ∧ 0 ≤ v ∧ v ≤ 5) ∧
    (r.payment_method = some "cash" ∨ r.payment_method = some "card") ∧
    Option.map stripString r.truck_name = r.truck_name ∧
    Option.map stripString r.truck_description = r.truck_description := by
  unfold validRows at h
  obtain ⟨hpm, r4, hr4, hlow⟩ := mem_stepPayment _ _ h
  obtain ⟨hr4b, hrat⟩ := mem_stepRating _ _ hr4
  obtain ⟨hr4c, hhcr⟩ := mem_stepCardReader _ _ hr4b
  obtain ⟨hr4d, hat⟩ := mem_stepAt _ _ hr4c
  obtain ⟨r5, hr5, q, hparse, hq, heq5⟩ := mem_stepTotal _ _ hr4d
  obtain ⟨r6, _, heq6⟩ := List.mem_map.mp hr5
  subst hlow
  subst heq5
  subst heq6
  refine ⟨⟨q, by simp [lowerPm], hq⟩, by simpa [lowerPm] using hat,
    by simpa [lowerPm] using hhcr, by simpa [lowerPm] using hrat, hpm, ?_, ?_⟩
  · simp [lowerPm, stripTextRow, optStrip_idem, optStrip_comp]
  · simp [lowerPm, stripTextRow, optStrip_idem, optStrip_comp]

theorem filterMap_eq_self_of {α : Type} (f : α → Option α) :
    ∀ l : List α, (∀ a ∈ l, f a = some a) → l.filterMap f = l := by
  intro l
  induction l with
  | nil => intro _; rfl
  | cons a t ih =>
    intro h
    rw [List.filterMap_cons, h a (List.mem_cons_self a t),
      ih (fun b hb => h b (List.mem_cons_of_mem a hb))]

theorem map_eq_self_of {α : Type} (f : α → α) :
    ∀ l : List α, (∀ a ∈ l, f a = a) → l.map f = l := by
  intro l
  induction l with
  | nil => intro _; rfl
  | cons a t ih =>
    intro h
    rw [List.map_cons, h a (List.mem_cons_self a t),
      ih (fun b hb => h b (List.mem_cons_of_mem a hb))]

/-! ### Claim C1 -/

/-- C1: for every input row set, every record surviving `clean_transactions`
has a numeric amount strictly greater than 0, a successfully parsed event
timestamp, and a (lowercased) payment-method label in the set
\{"cash", "card"\}. -/
theorem clean_survivors_valid (rows : List RawRow) (r : RawRow)
    (h : r ∈ clean_transactions rows) :
    (∃ q : Rat, r.total = RawTotal.num q ∧ 0 < q) ∧
    r.«at».isSome = true ∧
    (r.payment_method = some "cash" ∨ r.payment_method = some "card") := by
  unfold clean_transactions at h
  have hv := mem_validRows rows r (mem_of_mem_dedupByKey _ _ r h)
  exact ⟨hv.1, hv.2.1, hv.2.2.2.2.1⟩

/-- Witness for C1: a concrete row survives cleaning and satisfies the
three surviving-record properties. -/
theorem clean_survivors_valid_witness :
    (txRow 1 "T" "cash" (RawTotal.num 5) ⟨2024, 3, 5, 14, 30⟩) ∈
      clean_transactions [txRow 1 "T" "cash" (RawTotal.num 5) ⟨2024, 3, 5, 14, 30⟩] ∧
    ((∃ q : Rat,
        (txRow 1 "T" "cash" (RawTotal.num 5) ⟨2024, 3, 5, 14, 30⟩).total = RawTotal.num q ∧
          0 < q) ∧
      (txRow 1 "T" "cash" (RawTotal.num 5) ⟨2024, 3, 5, 14, 30⟩).«at».isSome = true ∧
      ((txRow 1 "T" "cash" (RawTotal.num 5) ⟨2024, 3, 5, 14, 30⟩).payment_method = some "cash" ∨
        (txRow 1 "T" "cash" (RawTotal.num 5) ⟨2024, 3, 5, 14, 30⟩).payment_method =
          some "card")) :=
  ⟨by decide,
    clean_survivors_valid [txRow 1 "T" "cash" (RawTotal.num 5) ⟨2024, 3, 5, 14, 30⟩]
      (txRow 1 "T" "cash" (RawTotal.num 5) ⟨2024, 3, 5, 14, 30⟩) (by decide)⟩

/-! ### Claim C2 -/

/-- C2 counterexample: two raw rows share `transaction_id = 1`, but both
carry the amount literal VOID, so both are dropped by the amount rule and
no row with that identifier survives — contradicting "exactly one row with
that identifier survives". -/
theorem clean_dup_both_dropped_cex :
    (txRow 1 "T" "cash" RawTotal.voidLit ⟨2024, 3, 5, 14, 30⟩).transaction_id =
      (txRow 1 "U" "cash" RawTotal.voidLit ⟨2024, 3, 5, 15, 0⟩).transaction_id ∧
    (clean_transactions
        [txRow 1 "T" "cash" RawTotal.voidLit ⟨2024, 3, 5, 14, 30⟩,
          txRow 1 "U" "cash" RawTotal.voidLit ⟨2024, 3, 5, 15, 0⟩]).filter
      (fun r => decide (r.transaction_id = some 1)) = [] := by
  constructor
  · rfl
  · decide

/-- C2 (amended): whenever some row with identifier `k` survives the row
validation rules, exactly one row with identifier `k` survives the whole
of `clean_transactions`, namely the first validated row with that
identifier in input order. -/
theorem clean_dup_keeps_first_valid (rows : List RawRow) (k : Option Int) (r0 : RawRow)
    (h : (validRows rows).find? (fun r => decide (r.transaction_id = k)) = some r0) :
    (clean_transactions rows).filter (fun r => decide (r.transaction_id = k)) = [r0] := by
  unfold clean_transactions
  rw [dedupByKey_filter_key (fun r => r.transaction_id) k (validRows rows)]
  rw [find?_eq_head?_filter] at h
  cases hf : (validRows rows).filter (fun r => decide (r.transaction_id = k)) with
  | nil => rw [hf] at h; simp at h
  | cons a t =>
    rw [hf] at h
    simp only [List.head?_cons, Option.some.injEq] at h
    subst h
    simp

/-- Witness for C2 (amended): two valid raw rows share identifier 1; the
first one is the unique survivor with that identifier. -/
theorem clean_dup_keeps_first_valid_witness :
    (validRows
        [txRow 1 "T" "cash" (RawTotal.num 5) ⟨2024, 3, 5, 14, 30⟩,
          txRow 1 "U" "card" (RawTotal.num 7) ⟨2024, 3, 5, 15, 0⟩]).find?
      (fun r => decide (r.transaction_id = some 1)) =
      some (txRow 1 "T" "cash" (RawTotal.num 5) ⟨2024, 3, 5, 14, 30⟩) ∧
    (clean_transactions
        [txRow 1 "T" "cash" (RawTotal.num 5) ⟨2024, 3, 5, 14, 30⟩,
          txRow 1 "U" "card" (RawTotal.num 7) ⟨2024, 3, 5, 15, 0⟩]).filter
      (fun r => decide (r.transaction_id = some 1)) =
      [txRow 1 "T" "cash" (RawTotal.num 5) ⟨2024, 3, 5, 14, 30⟩] :=
  ⟨by decide,
    clean_dup_keeps_first_valid
      [txRow 1 "T" "cash" (RawTotal.num 5) ⟨2024, 3, 5, 14, 30⟩,
        txRow 1 "U" "card" (RawTotal.num 7) ⟨2024, 3, 5, 15, 0⟩]
      (some 1) (txRow 1 "T" "cash" (RawTotal.num 5) ⟨2024, 3, 5, 14, 30⟩) (by decide)⟩

/-! ### Claim C3 -/

/-- C3: cleaning is idempotent — applying `clean_transactions` to its own
output returns the same record list (same rows, values and order). -/
theorem clean_transactions_idempotent (rows : List RawRow) :
    clean_transactions (clean_transactions rows) = clean_transactions rows := by
  have hmem : ∀ r ∈ clean_transactions rows,
      (∃ q : Rat, r.total = RawTotal.num q ∧ 0 < q) ∧
      r.«at».isSome = true ∧
      (r.has_card_reader = some 0 ∨ r.has_card_reader = some 1) ∧
      (∃ v : Int, r.fsa_rating = some v ∧ 0 ≤ v ∧ v ≤ 5) ∧
      (r.payment_method = some "cash" ∨ r.payment_method = some "card") ∧
      Option.map stripString r.truck_name = r.truck_name ∧
      Option.map stripString r.truck_description = r.truck_description := by
    intro r hr
    unfold clean_transactions at hr
    exact mem_validRows rows r (mem_of_mem_dedupByKey _ _ r hr)
  have h1 : (clean_transactions rows).map stripTextRow = clean_transactions rows := by
    apply map_eq_self_of
    intro r hr
    obtain ⟨_, _, _, _, hpm, hn, hd⟩ := hmem r hr
    have hpmfix : Option.map stripString r.payment_method = r.payment_method := by
      rcases hpm with h | h <;> rw [h] <;> decide
    unfold stripTextRow
    rw [hpmfix, hn, hd]
  have h2 : stepTotal (clean_transactions rows) = clean_transactions rows := by
    apply filterMap_eq_self_of
    intro r hr
    obtain ⟨⟨q, hq, hpos⟩, _⟩ := hmem r hr
    have hrr : ({ r with total := RawTotal.num q } : RawRow) = r := by rw [← hq]
    rw [hq]
    simp only [parseTotal, hpos, if_true, hrr]
  have h3 : stepAt (clean_transactions rows) = clean_transactions rows := by
    unfold stepAt
    rw [List.filter_eq_self.mpr]
    intro r hr
    exact (hmem r hr).2.1
  have h4 : stepCardReader (clean_transactions rows) = clean_transactions rows := by
    unfold stepCardReader
    rw [List.filter_eq_self.mpr]
    intro r hr
    simpa using (hmem r hr).2.2.1
  have h5 : stepRating (clean_transactions rows) = clean_transactions rows := by
    unfold stepRating
    rw [List.filter_eq_self.mpr]
    intro r hr
    obtain ⟨v, hv, h05⟩ := (hmem r hr).2.2.2.1
    rw [hv]
    simpa using h05
  have h6 : stepPayment (clean_transactions rows) = clean_transactions rows := by
    unfold stepPayment
    have hmap : (clean_transactions rows).map lowerPm = clean_transactions rows := by
      apply map_eq_self_of
      intro r hr
      have hlfix : Option.map lowerString r.payment_method = r.payment_method := by
        rcases (hmem r hr).2.2.2.2.1 with h | h <;> rw [h] <;> decide
      unfold lowerPm
      rw [hlfix]
    rw [hmap, List.filter_eq_self.mpr]
    intro r hr
    simpa using (hmem r hr).2.2.2.2.1
  have hvalid : validRows (clean_transactions rows) = clean_transactions rows := by
    unfold validRows
    rw [h1, h2, h3, h4, h5, h6]
  show dedupByKey (fun r => r.transaction_id) (validRows (clean_transactions rows)) =
    clean_transactions rows
  rw [hvalid]
  exact dedupByKey_eq_self _ _ (keys_nodup_dedupByKey (fun r => r.transaction_id) (validRows rows))

/-! ### Claim C4 -/

/-- C4: every written transaction lands in exactly one leaf partition — the
partitions whose file contains the row are exactly the single partition
named by truncating its event timestamp to
`year=YYYY/month=MM/day=DD/hour=HH`. -/
theorem partition_assignment_unique (rows : List RawRow) (r : RawRow) (dt : Timestamp)
    (hmem : r ∈ rows) (hat : r.«at» = some dt) :
    ((write_time_partitioned_transactions rows).filter
        (fun g => decide (r ∈ g.2))).map Prod.fst = [partitionPath dt] := by
  unfold write_time_partitioned_transactions
  have hrpres : r ∈ rows.filter (fun x => x.«at».isSome) :=
    List.mem_filter.mpr ⟨hmem, by rw [hat]; rfl⟩
  have hPmem : partitionPath dt ∈
      dedupByKey id ((rows.filter fun x => x.«at».isSome).filterMap
        fun x => x.«at».map partitionPath) :=
    (mem_dedupByKey_id _ _).mpr (List.mem_filterMap.mpr ⟨r, hrpres, by rw [hat]; rfl⟩)
  rw [List.filter_map, List.map_map]
  have hgrp : ∀ k, (decide (r ∈ (rows.filter fun x => x.«at».isSome).filter
        (fun x => decide (x.«at».map partitionPath = some k)))) =
      decide (k = partitionPath dt) := by
    intro k
    rw [decide_eq_decide]
    constructor
    · intro hin
      have := List.of_mem_filter hin
      simp only [decide_eq_true_eq] at this
      rw [hat] at this
      simp at this
      exact this.symm
    · intro hk
      subst hk
      exact List.mem_filter.mpr ⟨hrpres, by rw [hat]; simp⟩
  have hcongr : (dedupByKey id ((rows.filter fun x => x.«at».isSome).filterMap
        fun x => x.«at».map partitionPath)).filter
        ((fun g => decide (r ∈ g.2)) ∘ fun k =>
          (k, (rows.filter fun x => x.«at».isSome).filter
            fun x => decide (x.«at».map partitionPath = some k))) =
      (dedupByKey id ((rows.filter fun x => x.«at».isSome).filterMap
        fun x => x.«at».map partitionPath)).filter (fun k => decide (k = partitionPath dt)) :=
    List.filter_congr (fun k _ => hgrp k)
  rw [hcongr, filter_eq_singleton_of_nodup _ (nodup_dedupByKey_id _) _ hPmem]
  rfl

/-- Witness for C4: the concrete spec example — a transaction stamped
2024-03-05T14:30:00 is written to `year=2024/month=03/day=05/hour=14` and
to no other leaf. -/
theorem partition_assignment_unique_witness :
    ((write_time_partitioned_transactions
          [txRow 1 "T" "cash" (RawTotal.num 5) ⟨2024, 3, 5, 14, 30⟩]).filter
        (fun g => decide (txRow 1 "T" "cash" (RawTotal.num 5) ⟨2024, 3, 5, 14, 30⟩ ∈ g.2))).map
      Prod.fst = ["year=2024/month=03/day=05/hour=14"] := by
  have h := partition_assignment_unique
    [txRow 1 "T" "cash" (RawTotal.num 5) ⟨2024, 3, 5, 14, 30⟩]
    (txRow 1 "T" "cash" (RawTotal.num 5) ⟨2024, 3, 5, 14, 30⟩)
    ⟨2024, 3, 5, 14, 30⟩ (by decide) rfl
  rw [h]
  decide

/-! ### Claim C5 -/

/-- Every row surviving `clean_base_df` carries a non-missing truck name:
the `dropna` on line 18 of `transforms.py` includes `truck_name`.  So the
name-presence hypothesis of the reconciliation theorem holds for every
dashboard row set that reaches `compute_truck_perf`. -/
theorem clean_base_df_names_present (df : List DashRow) :
    ∀ r ∈ clean_base_df df, r.truck_name.isSome = true := by
  intro r hr
  unfold clean_base_df at hr
  have h1 := List.mem_of_mem_filter hr
  have h2 := List.of_mem_filter h1
  simp only [Bool.and_eq_true] at h2
  exact h2.1.1.2

/-- C5: for a non-empty input row set (with the truck-name column present
on every row, as `clean_base_df` guarantees), the summed `revenue` column
of `compute_truck_perf` equals the sum of the `total` column of the input
row set. -/
theorem truck_perf_revenue_reconciles (df : List DashRow) (hne : df ≠ [])
    (hnames : ∀ r ∈ df, r.truck_name.isSome = true) :
    ((compute_truck_perf df).map fun t => t.revenue).sum =
      (df.filterMap fun r => r.total).sum := by
  unfold compute_truck_perf
  rw [List.map_map]
  rw [((sortLe_perm leString _).map _).sum_eq]
  have hptw : ∀ n ∈ dedupByKey id (df.filterMap fun r => r.truck_name),
      ((fun t : TruckPerf => t.revenue) ∘ fun n =>
        ({ truck_name := n
           revenue := groupRevenue (truckGroup df n)
           transactions := nuniqueTx (truckGroup df n)
           avg_sale := groupAvgSale (truckGroup df n)
           cash_share := groupCashShare (truckGroup df n) } : TruckPerf)) n =
      ((df.filter fun a => decide (a.truck_name = some n)).map fun a => a.total.getD 0).sum := by
    intro n _
    show groupRevenue (truckGroup df n) = _
    unfold groupRevenue truckGroup
    exact sum_filterMap_getD _ _
  rw [List.map_congr_left hptw]
  have hnodup : ((dedupByKey id (df.filterMap fun r => r.truck_name)).map some).Nodup :=
    (nodup_dedupByKey_id _).map (Option.some_injective String)
  have hcov : ∀ a ∈ df, a.truck_name ∈
      (dedupByKey id (df.filterMap fun r => r.truck_name)).map some := by
    intro a ha
    obtain ⟨n, hn⟩ := Option.isSome_iff_exists.mp (hnames a ha)
    have hmemn : n ∈ dedupByKey id (df.filterMap fun r => r.truck_name) :=
      (mem_dedupByKey_id _ _).mpr (List.mem_filterMap.mpr ⟨a, ha, hn⟩)
    rw [hn]
    exact List.mem_map_of_mem some hmemn
  have hkey := keys_partition_sum (fun r : DashRow => r.truck_name)
    (fun a => a.total.getD 0) ((dedupByKey id (df.filterMap fun r => r.truck_name)).map some)
    hnodup df hcov
  rw [List.map_map] at hkey
  rw [show ((fun k => ((df.filter fun a => decide (a.truck_name = k)).map
      fun a => a.total.getD 0).sum) ∘ some) =
    (fun n => ((df.filter fun a => decide (a.truck_name = some n)).map
      fun a => a.total.getD 0).sum) from rfl] at hkey
  rw [hkey]
  exact (sum_filterMap_getD _ _).symm

/-- Witness for C5: a concrete two-row, two-truck dashboard set. -/
theorem truck_perf_revenue_reconciles_witness :
    ([dashRow 1 "A" "cash" 5, dashRow 2 "B" "card" 7] ≠ ([] : List DashRow)) ∧
    (∀ r ∈ [dashRow 1 "A" "cash" 5, dashRow 2 "B" "card" 7], r.truck_name.isSome = true) ∧
    ((compute_truck_perf [dashRow 1 "A" "cash" 5, dashRow 2 "B" "card" 7]).map
        fun t => t.revenue).sum =
      (([dashRow 1 "A" "cash" 5, dashRow 2 "B" "card" 7]).filterMap fun r => r.total).sum :=
  ⟨by decide, by decide, truck_perf_revenue_reconciles _ (by decide) (by decide)⟩

/-! ### Claim C6 -/

theorem countP_le_of_imp {α : Type} (p q : α → Bool) :
    ∀ l : List α, (∀ a ∈ l, p a = true → q a = true) → l.countP p ≤ l.countP q := by
  intro l
  induction l with
  | nil => intro _; exact Nat.le_refl 0
  | cons a t ih =>
    intro h
    rw [List.countP_cons, List.countP_cons]
    have ht := ih (fun b hb => h b (List.mem_cons_of_mem a hb))
    by_cases hpa : p a = true
    · have hqa := h a (List.mem_cons_self a t) hpa
      rw [if_pos hpa, if_pos hqa]
      omega
    · rw [if_neg hpa]
      by_cases hqa : q a = true
      · rw [if_pos hqa]; omega
      · rw [if_neg hqa]; omega

/-- C6 counterexample: a truck group whose only row has a missing payment
method is reachable (`clean_base_df` does not drop rows for a missing
`payment_method`), and there the string-dtype `s.eq("cash").mean()` is NA
— the group's cash share is no rational at all (and the program's
`float(...)` raises on it), so it is not a ratio in [0, 1]. -/
theorem cash_share_missing_group_cex :
    (compute_truck_perf
        [⟨some 1, some 2, some "A", some 3, none, some 5,
            some ⟨2024, 3, 5, 0, 0⟩, some ⟨2024, 3, 5, 14, 0⟩⟩]).map
        (fun t => (t.truck_name, t.cash_share)) = [("A", none)] ∧
    ¬ ∃ q : Rat, 0 ≤ q ∧ q ≤ 1 ∧
      (compute_truck_perf
          [⟨some 1, some 2, some "A", some 3, none, some 5,
              some ⟨2024, 3, 5, 0, 0⟩, some ⟨2024, 3, 5, 14, 0⟩⟩]).map
        (fun t => t.cash_share) = [some q] := by
  constructor
  · decide
  · rintro ⟨q, _, _, heq⟩
    have hmap : (compute_truck_perf
        [(⟨some 1, some 2, some "A", some 3, none, some 5,
            some ⟨2024, 3, 5, 0, 0⟩, some ⟨2024, 3, 5, 14, 0⟩⟩ : DashRow)]).map
        (fun t => t.cash_share) = [none] := by decide
    rw [hmap] at heq
    simp at heq

/-- C6 (amended): for every truck whose group has at least one
non-missing payment method, the aggregate entry's cash share is a defined
ratio in [0, 1] — the fraction of the group's non-missing methods equal
to "cash" — and it equals 1 when every transaction of the group pays cash
and 0 when none does.  (A group whose methods are all missing instead
yields NA, on which the program's `float` conversion raises.) -/
theorem cash_share_in_unit_interval (df : List DashRow) (n : String)
    (hp : ∃ r ∈ df, r.truck_name = some n ∧ r.payment_method.isSome = true) :
    ∃ t ∈ compute_truck_perf df, t.truck_name = n ∧
      ∃ q : Rat, t.cash_share = some q ∧ 0 ≤ q ∧ q ≤ 1 ∧
        ((∀ r ∈ df, r.truck_name = some n → r.payment_method = some "cash") → q = 1) ∧
        ((∀ r ∈ df, r.truck_name = some n → r.payment_method ≠ some "cash") → q = 0) := by
  obtain ⟨r0, hr0, hname, hpm⟩ := hp
  have hnn : n ∈ dedupByKey id (df.filterMap fun r => r.truck_name) :=
    (mem_dedupByKey_id _ _).mpr (List.mem_filterMap.mpr ⟨r0, hr0, hname⟩)
  have hns : n ∈ sortLe leString (dedupByKey id (df.filterMap fun r => r.truck_name)) :=
    ((sortLe_perm _ _).mem_iff).mpr hnn
  have hr0g : r0 ∈ truckGroup df n := List.mem_filter.mpr ⟨hr0, by simp [hname]⟩
  have hlen : 0 < (truckGroup df n).length :=
    List.length_pos.mpr (List.ne_nil_of_mem hr0g)
  have hcp : 0 < (truckGroup df n).countP fun r => r.payment_method.isSome :=
    List.countP_pos_iff.mpr ⟨r0, hr0g, hpm⟩
  have hcpq : (0 : Rat) <
      (((truckGroup df n).countP fun r => r.payment_method.isSome) : Rat) := by
    exact_mod_cast hcp
  refine ⟨{ truck_name := n
            revenue := groupRevenue (truckGroup df n)
            transactions := nuniqueTx (truckGroup df n)
            avg_sale := groupAvgSale (truckGroup df n)
            cash_share := groupCashShare (truckGroup df n) },
    List.mem_map_of_mem _ hns, rfl,
    ((truckGroup df n).countP (fun r => decide (r.payment_method = some "cash")) : Rat) /
      (((truckGroup df n).countP fun r => r.payment_method.isSome) : Rat),
    ?_, ?_, ?_, ?_, ?_⟩
  · show groupCashShare (truckGroup df n) = some _
    unfold groupCashShare
    rw [if_neg (Nat.pos_iff_ne_zero.mp hcp)]
  · exact div_nonneg (by positivity) (by positivity)
  · rw [div_le_one hcpq]
    have hmono := countP_le_of_imp
      (fun r : DashRow => decide (r.payment_method = some "cash"))
      (fun r : DashRow => r.payment_method.isSome) (truckGroup df n)
      (fun a _ hpa => by
        simp only [decide_eq_true_eq] at hpa
        show a.payment_method.isSome = true
        rw [hpa]
        rfl)
    exact_mod_cast hmono
  · intro hall
    have hcc : ((truckGroup df n).countP fun r => decide (r.payment_method = some "cash")) =
        (truckGroup df n).length := by
      apply List.countP_eq_length.mpr
      intro a ha
      have hmem := List.mem_of_mem_filter ha
      have hna := List.of_mem_filter ha
      simp only [decide_eq_true_eq] at hna ⊢
      exact hall a hmem hna
    have hcp2 : ((truckGroup df n).countP fun r => r.payment_method.isSome) =
        (truckGroup df n).length := by
      apply List.countP_eq_length.mpr
      intro a ha
      have hmem := List.mem_of_mem_filter ha
      have hna := List.of_mem_filter ha
      simp only [decide_eq_true_eq] at hna
      rw [hall a hmem hna]
      rfl
    rw [hcc, hcp2]
    exact div_self (by exact_mod_cast hlen.ne')
  · intro hnone
    have hcc0 : ((truckGroup df n).countP fun r => decide (r.payment_method = some "cash")) =
        0 := by
      rw [List.countP_eq_zero]
      intro a ha
      have hmem := List.mem_of_mem_filter ha
      have hna := List.of_mem_filter ha
      simp only [decide_eq_true_eq] at hna ⊢
      exact hnone a hmem hna
    rw [hcc0]
    simp

/-- Witness for C6 (amended) at a concrete three-row set with two trucks. -/
theorem cash_share_in_unit_interval_witness :
    (∃ r ∈ [dashRow 1 "A" "cash" 5, dashRow 2 "A" "card" 7, dashRow 3 "B" "cash" 3],
      r.truck_name = some "A" ∧ r.payment_method.isSome = true) ∧
    (∃ t ∈ compute_truck_perf [dashRow 1 "A" "cash" 5, dashRow 2 "A" "card" 7,
        dashRow 3 "B" "cash" 3], t.truck_name = "A" ∧
      ∃ q : Rat, t.cash_share = some q ∧ 0 ≤ q ∧ q ≤ 1 ∧
        ((∀ r ∈ [dashRow 1 "A" "cash" 5, dashRow 2 "A" "card" 7, dashRow 3 "B" "cash" 3],
            r.truck_name = some "A" → r.payment_method = some "cash") → q = 1) ∧
        ((∀ r ∈ [dashRow 1 "A" "cash" 5, dashRow 2 "A" "card" 7, dashRow 3 "B" "cash" 3],
            r.truck_name = some "A" → r.payment_method ≠ some "cash") → q = 0)) :=
  ⟨by decide,
    cash_share_in_unit_interval
      [dashRow 1 "A" "cash" 5, dashRow 2 "A" "card" 7, dashRow 3 "B" "cash" 3] "A" (by decide)⟩

/-! ### Claim C7 -/

/-- C7: for truck revenues [10, 20, 30, 40] the 25th-percentile threshold
computed by linear interpolation is 17.5 = 35/2, and the flagged
underperforming trucks are exactly those with revenue at or below the
threshold — here only the truck with revenue 10. -/
theorem quantile_flagging_example :
    low_rev_threshold
        [⟨"A", 10, 1, 10, some 0⟩, ⟨"B", 20, 1, 20, some 0⟩, ⟨"C", 30, 1, 30, some 0⟩, ⟨"D", 40, 1, 40, some 0⟩] =
      35 / 2 ∧
    low_rev
        [⟨"A", 10, 1, 10, some 0⟩, ⟨"B", 20, 1, 20, some 0⟩, ⟨"C", 30, 1, 30, some 0⟩, ⟨"D", 40, 1, 40, some 0⟩] =
      [⟨"A", 10, 1, 10, some 0⟩] := by
  have hidx : quantileIdx (1/4) 4 = 0 := by
    unfold quantileIdx
    norm_num [Rat.floor]
  have hfrac : quantileFrac (1/4) 4 = 3/4 := by
    unfold quantileFrac
    rw [hidx]
    norm_num
  have hsort : sortedVals [(10 : Rat), 20, 30, 40] = [10, 20, 30, 40] := by
    unfold sortedVals
    decide
  have hthr : low_rev_threshold
      [⟨"A", 10, 1, 10, some 0⟩, ⟨"B", 20, 1, 20, some 0⟩, ⟨"C", 30, 1, 30, some 0⟩, ⟨"D", 40, 1, 40, some 0⟩] =
      35 / 2 := by
    show quantileLinear (1/4) [10, 20, 30, 40] = 35 / 2
    unfold quantileLinear
    rw [hsort, show ([(10 : Rat), 20, 30, 40]).length = 4 from rfl, hidx, hfrac]
    show (10 : Rat) + 3/4 * (20 - 10) = 35 / 2
    norm_num
  refine ⟨hthr, ?_⟩
  unfold low_rev
  rw [hthr]
  have c1 : ((10 : Rat) ≤ 35 / 2) := by norm_num
  have c2 : ¬((20 : Rat) ≤ 35 / 2) := by norm_num
  have c3 : ¬((30 : Rat) ≤ 35 / 2) := by norm_num
  have c4 : ¬((40 : Rat) ≤ 35 / 2) := by norm_num
  simp [List.filter_cons, c1, c2, c3, c4]

/-! ### Claim C8 -/

/-- C8 (evaluation of the code at the failing input): with zero fact rows
for the target day (and any dimension tables), `build_metrics` does
return a zero transaction count, an empty by-truck aggregate — rendered
by `df_to_html_table` as the explicit no-transactions notice — zero cash
and card counts and 0 payment-mix shares, and no highlights, without
raising.  But the overall revenue and average-spend figures are NaN
(`none`), not zero: the empty day's NULL `SUM`/`AVG` materialize as float
NaN, which is truthy, so the `float(x or 0.0)` fallback keeps it and the
report renders £nan — diverging from the claimed zero revenue. -/
theorem empty_day_report_nan_revenue (trucks pms : List (Int × String)) :
    build_metrics [] trucks pms =
      { overall := { total_transaction_value_gbp := none, n_transactions := 0,
                     avg_customer_spend_gbp := none }
        by_truck_df := []
        payment_mix := { cash_n := 0, card_n := 0, cash_share := 0, card_share := 0 }
        top_truck_by_revenue := none
        lowest_truck_by_revenue := none
        top_truck_by_transactions := none } ∧
    (build_metrics [] trucks pms).overall.total_transaction_value_gbp ≠ some 0 ∧
    df_to_html_table [] = "<p><em>No transactions recorded for this date.</em></p>" := by
  have hmain : build_metrics [] trucks pms =
      { overall := { total_transaction_value_gbp := none, n_transactions := 0,
                     avg_customer_spend_gbp := none }
        by_truck_df := []
        payment_mix := { cash_n := 0, card_n := 0, cash_share := 0, card_share := 0 }
        top_truck_by_revenue := none
        lowest_truck_by_revenue := none
        top_truck_by_transactions := none } := by
    unfold build_metrics
    rw [show validTx [] = [] from rfl]
    simp [build_by_truck, build_pm_counts, validTx, countDistinctTx, dedupByKey, sortLe,
      gbp_from_pence]
  exact ⟨hmain, by rw [hmain]; simp, rfl⟩

/-! ### Claim C9 -/

theorem not_angle_mem_escapeChar (c : Char) :
    ('<') ∉ escapeChar c ∧ ('>') ∉ escapeChar c := by
  unfold escapeChar
  split_ifs with h1 h2 h3 h4 h5
  · constructor <;> decide
  · constructor <;> decide
  · constructor <;> decide
  · constructor <;> decide
  · constructor <;> decide
  · refine ⟨?_, ?_⟩
    · intro hmem
      rw [List.mem_singleton] at hmem
      exact h2 hmem.symm
    · intro hmem
      rw [List.mem_singleton] at hmem
      exact h3 hmem.symm

theorem escape_fold_no_angle (l : List Char) :
    ('<') ∉ l.foldr (fun c acc => escapeChar c ++ acc) [] ∧
      ('>') ∉ l.foldr (fun c acc => escapeChar c ++ acc) [] := by
  induction l with
  | nil => simp
  | cons c t ih =>
    rw [List.foldr_cons]
    constructor
    · intro hmem
      rcases List.mem_append.mp hmem with h | h
      · exact (not_angle_mem_escapeChar c).1 h
      · exact ih.1 h
    · intro hmem
      rcases List.mem_append.mp hmem with h | h
      · exact (not_angle_mem_escapeChar c).2 h
      · exact ih.2 h

set_option maxRecDepth 8000 in
/-- C9: no escaped truck name can contribute a raw `<` or `>` to the
report markup, and concretely the name `<script>alert(1)</script>`
appears in the rendered highlight line and by-truck table only in its
HTML-escaped form — the raw `<script>` tag occurs nowhere in either. -/
theorem report_escapes_truck_names :
    (∀ name : String, ('<') ∉ (htmlEscape name).data ∧ ('>') ∉ (htmlEscape name).data) ∧
    occursIn "<script>".data (highlight_line "Top truck by revenue"
        (some ⟨"<script>alert(1)</script>", 12, 5⟩)).data = false ∧
    occursIn "&lt;script&gt;alert(1)&lt;/script&gt;".data (highlight_line "Top truck by revenue"
        (some ⟨"<script>alert(1)</script>", 12, 5⟩)).data = true ∧
    occursIn "<script>".data
        (df_to_html_table [⟨"<script>alert(1)</script>", 5, 1200, 240, 12, 2⟩]).data = false ∧
    occursIn "&lt;script&gt;alert(1)&lt;/script&gt;".data
        (df_to_html_table [⟨"<script>alert(1)</script>", 5, 1200, 240, 12, 2⟩]).data = true := by
  exact ⟨fun name => escape_fold_no_angle name.data, by decide, by decide, by decide, by decide⟩

/-! ### Claim C10 -/

theorem sum_map_one {α : Type} : ∀ l : List α, (l.map fun _ => (1 : Nat)).sum = l.length := by
  intro l
  induction l with
  | nil => rfl
  | cons a t ih => simp [ih, Nat.add_comm]

theorem countP_const_true {α : Type} : ∀ l : List α, (l.countP fun _ => true) = l.length := by
  intro l
  induction l with
  | nil => rfl
  | cons a t ih => rw [List.countP_cons]; simp [ih]

/-- Summing the occurrence counts of the distinct values selected by `q`
recovers the `q`-count of the column. -/
theorem countP_partition_by_dedup {α : Type} [DecidableEq α] (col : List α) (q : α → Bool) :
    (((dedupByKey id col).filter q).map fun v => col.countP fun x => decide (x = v)).sum =
      col.countP q := by
  have hcov : ∀ a ∈ col.filter q, a ∈ (dedupByKey id col).filter q := by
    intro a ha
    exact List.mem_filter.mpr
      ⟨(mem_dedupByKey_id col a).mpr (List.mem_of_mem_filter ha), List.of_mem_filter ha⟩
  have hnd : ((dedupByKey id col).filter q).Nodup := (nodup_dedupByKey_id col).filter q
  have hkey := keys_partition_sum (fun x : α => x) (fun _ => (1 : Nat))
    ((dedupByKey id col).filter q) hnd (col.filter q) hcov
  have hterm : ∀ v ∈ (dedupByKey id col).filter q,
      (((col.filter q).filter fun a => decide (a = v)).map fun _ => (1 : Nat)).sum =
        col.countP fun x => decide (x = v) := by
    intro v hv
    have hqv := List.of_mem_filter hv
    have heq : (col.filter q).filter (fun a => decide (a = v)) =
        col.filter fun a => decide (a = v) := by
      rw [List.filter_filter]
      apply List.filter_congr
      intro a _
      by_cases hav : a = v
      · subst hav; simp [hqv]
      · simp [hav]
    rw [heq, sum_map_one]
    exact (List.countP_eq_length_filter _ _).symm
  rw [List.map_congr_left hterm] at hkey
  rw [hkey, sum_map_one]
  exact (List.countP_eq_length_filter _ _).symm

/-- C10: the per-method counts of `compute_payment_mix` sum to the number
of input rows, and for every label the count mass under that label equals
the number of row occurrences carrying it (missing methods under the
label "unknown") — each row is counted in exactly one bucket, by
occurrence rather than by distinct transaction id. -/
theorem payment_mix_counts_partition (df : List DashRow) :
    ((compute_payment_mix df).map Prod.snd).sum = df.length ∧
    (∀ s : String,
      (((compute_payment_mix df).filter fun p => decide (p.1 = s)).map Prod.snd).sum =
        df.countP fun r => decide (r.payment_method.getD "unknown" = s)) := by
  constructor
  · unfold compute_payment_mix
    rw [List.map_map]
    rw [show (Prod.snd ∘ fun p : Option String × Nat => (p.1.getD "unknown", p.2)) =
      (Prod.snd : Option String × Nat → Nat) from rfl]
    rw [((sortLe_perm _ _).map Prod.snd).sum_eq]
    rw [List.map_map]
    rw [show (Prod.snd ∘ fun v : Option String =>
        (v, (df.map fun r => r.payment_method).countP fun x => decide (x = v))) =
      (fun v : Option String =>
        (df.map fun r => r.payment_method).countP fun x => decide (x = v)) from rfl]
    have hpart := countP_partition_by_dedup (df.map fun r => r.payment_method) (fun _ => true)
    rw [List.filter_eq_self.mpr (fun _ _ => rfl)] at hpart
    rw [hpart, countP_const_true, List.length_map]
  · intro s
    unfold compute_payment_mix
    rw [List.filter_map, List.map_map]
    rw [show ((fun p : String × Nat => decide (p.1 = s)) ∘
        fun p : Option String × Nat => (p.1.getD "unknown", p.2)) =
      (fun p : Option String × Nat => decide (p.1.getD "unknown" = s)) from rfl]
    rw [show (Prod.snd ∘ fun p : Option String × Nat => (p.1.getD "unknown", p.2)) =
      (Prod.snd : Option String × Nat → Nat) from rfl]
    rw [(((sortLe_perm _ _).filter _).map Prod.snd).sum_eq]
    rw [List.filter_map, List.map_map]
    rw [show ((fun p : Option String × Nat => decide (p.1.getD "unknown" = s)) ∘
        fun v : Option String =>
          (v, (df.map fun r => r.payment_method).countP fun x => decide (x = v))) =
      (fun v : Option String => decide (v.getD "unknown" = s)) from rfl]
    rw [show (Prod.snd ∘ fun v : Option String =>
        (v, (df.map fun r => r.payment_method).countP fun x => decide (x = v))) =
      (fun v : Option String =>
        (df.map fun r => r.payment_method).countP fun x => decide (x = v)) from rfl]
    rw [countP_partition_by_dedup (df.map fun r => r.payment_method)
      (fun v => decide (v.getD "unknown" = s))]
    rw [List.countP_map]
    rfl
